import Mathlib

/-!
# Verification of the RAG orchestration core of `casosUSO`

Shallow embedding of the retrieval-orchestration logic of the repository:

* `case_iot/utils/pinecone_utils.py` — filter predicate evaluation
  (`passes_filter`, `check_eq`, `check_lt`, `check_gt`, `check_lte`,
  `check_gte`), the orchestrator `interpret_and_search` with its
  filter/embedding fallback, and the batched re-ranker
  (`re_rank_in_batches`, `re_rank_once`);
* `case_documents/utils/doc_utils.py` — the chunker `chunk_text` with its
  break-point search `find_good_break_point`;
* `case_documents/utils/embedding_utils.py` (`get_embedding_new`) and
  `case_bigquery_sql/helpers/embeddings_helper.py`
  (`get_openai_embeddings`) — the two embedding clients.

Python strings are modelled as `List Char` where character-level index
arithmetic matters (the chunker) and as `String` elsewhere; Python numbers
are modelled as exact rationals (the properties verified here concern
coercion success/failure and comparisons of small decimal literals, which
rationals reproduce exactly); external network calls (LLM, vector index,
embedding API, re-rank API) are oracles passed in as parameters, with
`Option`/`Except` capturing their failure modes.
-/

namespace CasosUso

/-! ## Python scalar values and helpers -/

/-- A Python scalar value as it occurs in fragment metadata and in the
JSON filter objects produced by the LLM: a string, a number (int or
float, modelled as an exact rational), or a boolean. -/
inductive PyVal where
  | str (s : String)
  | num (q : ℚ)
  | bool (b : Bool)
deriving DecidableEq, Repr

/-- Fragment metadata: the Python dict mapping field names to scalar
values, modelled as an association list. -/
abbrev Metadata := List (String × PyVal)

/-- A per-field filter condition, e.g. `{"$lt": 20}`: the Python dict
mapping operator names to operand values. -/
abbrev Condition := List (String × PyVal)

/-- A filter: the Python dict mapping field names to conditions. -/
abbrev Filter := List (String × Condition)

/-- Python whitespace (the characters matched by `str.strip()` with no
argument and by the regex class `\s` on ASCII text). -/
def isPyWS (c : Char) : Bool :=
  c = ' ' || c = '\t' || c = '\n' || c = '\r' || c = '\x0b' || c = '\x0c'

/-- `str.strip()` on a character list: drop whitespace from both ends. -/
def pyStripL (l : List Char) : List Char :=
  ((l.dropWhile isPyWS).reverse.dropWhile isPyWS).reverse

/-- `str.strip()` on a `String`. -/
def pyStrip (s : String) : String :=
  String.mk (pyStripL s.toList)

/-- Numeric value of a run of decimal digit characters. -/
def digitsToNat (ds : List Char) : ℕ :=
  ds.foldl (fun a c => 10 * a + (c.toNat - 48)) 0

/-- Parse the mantissa part of a Python float literal: `digits`,
`digits.digits`, `digits.` or `.digits`.  Returns the mantissa scaled to
an integer (`digits · 10^fracLen + fracDigits`), the number of
fractional digits, and the unconsumed rest, so the rational value is
assembled with a single exact division at the end. -/
def parseMantissa (l : List Char) : Option (ℕ × ℕ × List Char) :=
  let ip := l.takeWhile Char.isDigit
  let rest := l.dropWhile Char.isDigit
  match rest with
  | '.' :: rest2 =>
      let fp := rest2.takeWhile Char.isDigit
      let rest3 := rest2.dropWhile Char.isDigit
      if ip = [] ∧ fp = [] then none
      else some (digitsToNat ip * 10 ^ fp.length + digitsToNat fp, fp.length, rest3)
  | _ => if ip = [] then none else some (digitsToNat ip, 0, rest)

/-- Python's `float(s)` on a string: strip whitespace, optional sign,
decimal mantissa, optional exponent; `none` models the `ValueError`
raised on anything else.  The value `±m·10^(±e)/10^fracLen` is built
with `Rat.divInt` on integers.  (The special literals `inf`/`nan` and
digit underscores are not modelled; no verified property depends on
them.) -/
def pyFloatOfStr (s : String) : Option ℚ :=
  let l := pyStripL s.toList
  let sgnRest : ℤ × List Char :=
    match l with
    | '-' :: r => (-1, r)
    | '+' :: r => (1, r)
    | _ => (1, l)
  match parseMantissa sgnRest.2 with
  | none => none
  | some (m, fracLen, rest) =>
    match rest with
    | [] => some (Rat.divInt (sgnRest.1 * m) (10 ^ fracLen))
    | 'e' :: r | 'E' :: r =>
        let esgnRest : Bool × List Char :=
          match r with
          | '-' :: rr => (true, rr)
          | '+' :: rr => (false, rr)
          | _ => (false, r)
        let ds := esgnRest.2.takeWhile Char.isDigit
        let r2 := esgnRest.2.dropWhile Char.isDigit
        if ds = [] ∨ r2 ≠ [] then none
        else
          let e := digitsToNat ds
          some (if esgnRest.1 then Rat.divInt (sgnRest.1 * m) (10 ^ fracLen * 10 ^ e)
                else Rat.divInt (sgnRest.1 * m * 10 ^ e) (10 ^ fracLen))
    | _ => none

/-- Numeric coercion of the stored metadata value as performed by
`float(meta_val_str)` in `check_lt`/`check_gt`/`check_lte`/`check_gte`:
strings are parsed, numbers pass through, booleans coerce to 0/1. -/
def metaNum? : PyVal → Option ℚ
  | .num q => some q
  | .bool b => some (if b then 1 else 0)
  | .str s => pyFloatOfStr s

/-- Numeric value of the comparison operand in `num < val` etc.: Python
compares floats with ints/floats and booleans numerically, while a string
operand raises `TypeError` (caught, yielding `False`). -/
def opNum? : PyVal → Option ℚ
  | .num q => some q
  | .bool b => some (if b then 1 else 0)
  | .str _s => none

/-! ## Filter predicate evaluation (`pinecone_utils.py`, lines 280–478) -/

/-- Decimal digits of the fractional part of `q ∈ [0,1)`, up to `fuel`
digits (stopping early when the expansion terminates). -/
def fracDigits : ℕ → ℚ → List Char
  | 0, _ => []
  | n + 1, q =>
    if q = 0 then []
    else
      let d := (q * 10).floor.toNat
      Char.ofNat (48 + d) :: fracDigits n (q * 10 - (d : ℚ))

/-- Decimal rendering of a rational, modelling Python's `str()` applied
to a stored number.  (Python's int-vs-float distinction — the trailing
`.0` on floats — is not modelled; no verified property evaluates the
string form of a stored number.) -/
def numRepr (q : ℚ) : String :=
  let sgn := if q < 0 then "-" else ""
  let a := |q|
  let ip := a.floor.toNat
  let fr := a - (ip : ℚ)
  if fr = 0 then sgn ++ toString ip
  else sgn ++ toString ip ++ "." ++ String.mk (fracDigits 17 fr)

/-- Python's `str(x)` on a metadata value, as used by `check_eq` to
coerce a non-string stored value before comparing. -/
def pyStrOfVal : PyVal → String
  | .str s => s
  | .bool true => "True"
  | .bool false => "False"
  | .num q => numRepr q

/-- `str.lower()` (ASCII). -/
def pyLower (s : String) : String :=
  String.mk (s.toList.map Char.toLower)

/-- `check_eq(md, field, val)`: the stored value is fetched with
`md.get(field)` (`None` → `False`), coerced to a string with `str()` if
needed; a boolean operand compares case-insensitively against
`"true"`/`"false"`, a numeric operand compares `float(stored) == val`
(`False` when the coercion raises), a string operand compares exactly. -/
def check_eq (md : Metadata) (field : String) (val : PyVal) : Bool :=
  match md.lookup field with
  | none => false
  | some mv =>
    let s := pyStrOfVal mv
    match val with
    | .bool b => pyLower s == pyLower (if b then "True" else "False")
    | .num q =>
        match pyFloatOfStr s with
        | some x => x == q
        | none => false
    | .str v => s == v

/-- `check_lt(md, field, val)`: `False` when the field is absent; else
`float(stored) < val`, with `False` when the coercion of the stored
value raises `ValueError`/`TypeError` or the comparison itself raises
`TypeError` (string operand). -/
def check_lt (md : Metadata) (field : String) (val : PyVal) : Bool :=
  match md.lookup field with
  | none => false
  | some mv =>
    match metaNum? mv, opNum? val with
    | some x, some v => decide (x < v)
    | _, _ => false

/-- `check_gt(md, field, val)`: as `check_lt` with `>`. -/
def check_gt (md : Metadata) (field : String) (val : PyVal) : Bool :=
  match md.lookup field with
  | none => false
  | some mv =>
    match metaNum? mv, opNum? val with
    | some x, some v => decide (x > v)
    | _, _ => false

/-- `check_lte(md, field, val)`: as `check_lt` with `≤`. -/
def check_lte (md : Metadata) (field : String) (val : PyVal) : Bool :=
  match md.lookup field with
  | none => false
  | some mv =>
    match metaNum? mv, opNum? val with
    | some x, some v => decide (x ≤ v)
    | _, _ => false

/-- `check_gte(md, field, val)`: as `check_lt` with `≥`. -/
def check_gte (md : Metadata) (field : String) (val : PyVal) : Bool :=
  match md.lookup field with
  | none => false
  | some mv =>
    match metaNum? mv, opNum? val with
    | some x, some v => decide (x ≥ v)
    | _, _ => false

/-- The per-field body of the loop in `passes_filter`: the
`if "$eq" in condition ... elif "$lt" in condition ... elif "$gte" ...`
chain.  Exactly the first operator present in the fixed order
`$eq, $lt, $gt, $lte, $gte` is evaluated; a condition containing none of
them imposes no constraint. -/
def condCheck (md : Metadata) (field : String) (condition : Condition) : Bool :=
  match condition.lookup "$eq" with
  | some v => check_eq md field v
  | none =>
    match condition.lookup "$lt" with
    | some v => check_lt md field v
    | none =>
      match condition.lookup "$gt" with
      | some v => check_gt md field v
      | none =>
        match condition.lookup "$lte" with
        | some v => check_lte md field v
        | none =>
          match condition.lookup "$gte" with
          | some v => check_gte md field v
          | none => true

/-- `passes_filter(md, filter_dict)`: the document passes when every
field's condition passes (the loop returns `False` at the first failing
condition and `True` after the loop). -/
def passes_filter (md : Metadata) (filter_dict : Filter) : Bool :=
  filter_dict.all fun fc => condCheck md fc.1 fc.2

/-! ## The chunker (`doc_utils.py`, lines 46–116) -/

/-- Python slice `l[a:b]` (for the non-negative indices used by the
chunker): empty when `b ≤ a`, clamped at the end of the list. -/
def sliceL (l : List Char) (a b : ℕ) : List Char :=
  (l.drop a).take (b - a)

/-- Python `haystack.find(needle)` on character lists: index of the first
occurrence of `needle` as a contiguous sublist, `none` for `-1`. -/
def findSub : List Char → List Char → Option ℕ
  | [], pat => if pat.isPrefixOf ([] : List Char) then some 0 else none
  | c :: t, pat =>
    if pat.isPrefixOf (c :: t) then some 0
    else (findSub t pat).map (· + 1)

/-- Python `haystack.rfind(needle)`: index of the last occurrence of
`needle`, `none` for `-1`. -/
def rfindSub (l pat : List Char) : Option ℕ :=
  ((List.range (l.length + 1)).filter fun i => pat.isPrefixOf (l.drop i)).getLast?

/-- The sentence/paragraph delimiters searched by
`find_good_break_point`, in the order the Python loop tries them:
`['. ', '.\n', '\n\n', '; ', '? ', '! ']`. -/
def breakChars : List (List Char) :=
  [['.', ' '], ['.', '\n'], ['\n', '\n'], [';', ' '], ['?', ' '], ['!', ' ']]

/-- `find_good_break_point(s, target_pos)`: search forward in
`s[target_pos : target_pos+100]` for the first delimiter (in list
order), then backward in `s[max(0,target_pos-100) : target_pos]` using
`rfind`, then take the nearest following space when it lies within 50
characters, else cut exactly at `target_pos`. -/
def find_good_break_point (s : List Char) (target_pos : ℕ) : ℕ :=
  match breakChars.findSome? (fun b =>
      (findSub (sliceL s target_pos (min (target_pos + 100) s.length)) b).map
        fun p => target_pos + p + b.length) with
  | some r => r
  | none =>
    match breakChars.findSome? (fun b =>
        (rfindSub (sliceL s (target_pos - 100) target_pos) b).map
          fun p => target_pos - ((sliceL s (target_pos - 100) target_pos).length - p - b.length)) with
    | some r => r
    | none =>
      match findSub (s.drop target_pos) [' '] with
      | some i => if target_pos + i < target_pos + 50 then target_pos + i + 1 else target_pos
      | none => target_pos

/-- The scan behind `re.sub(r'\s+', ' ', chunk)`: `inRun` records
whether the previous character belonged to a whitespace run, so each
maximal run contributes exactly one `' '`. -/
def collapseWSGo : Bool → List Char → List Char
  | _, [] => []
  | inRun, c :: rest =>
    if isPyWS c then
      if inRun then collapseWSGo true rest
      else ' ' :: collapseWSGo true rest
    else c :: collapseWSGo false rest

/-- `re.sub(r'\s+', ' ', chunk)`: collapse every maximal run of
whitespace to a single space. -/
def collapseWS (l : List Char) : List Char :=
  collapseWSGo false l

/-- The cursor update of the chunking loop:
`start = max(start + 1, end - overlap)`. -/
def nextStart (start e overlap : ℕ) : ℕ :=
  max (start + 1) (e - overlap)

/-- The chosen end of the window starting at `start`: the intended end
`end = min(start + chunk_size, len(text))` (the Python local `end`),
moved to a good break point when it is not the end of the text. -/
def chunkEnd (text : List Char) (size start : ℕ) : ℕ :=
  if min (start + size) text.length < text.length then
    find_good_break_point text (min (start + size) text.length)
  else min (start + size) text.length

/-- The candidate fragment of the window starting at `start`:
`text[start:end].strip()` (the Python local `chunk` before the
whitespace collapse). -/
def chunkPiece (text : List Char) (size start : ℕ) : List Char :=
  pyStripL (sliceL text start (chunkEnd text size start))

/-- The `while start < len(text)` loop of `chunk_text`, with the emitted
fragments accumulated in `acc`: compute the window end, strip the
window, emit it (whitespace-collapsed) when non-empty, and advance the
cursor by `max(start + 1, end - overlap)`. -/
def chunkLoop (text : List Char) (size overlap : ℕ) (start : ℕ) (acc : List (List Char)) :
    List (List Char) :=
  if _h : start < text.length then
    chunkLoop text size overlap (nextStart start (chunkEnd text size start) overlap)
      (if chunkPiece text size start = [] then acc
       else acc ++ [collapseWS (chunkPiece text size start)])
  else acc
termination_by text.length - start
decreasing_by
  simp only [nextStart]
  omega

/-- `chunk_text(text, chunk_size, overlap)`: empty input yields no
fragments, otherwise run the chunking loop from `start = 0`. -/
def chunk_text (text : List Char) (chunk_size overlap : ℕ) : List (List Char) :=
  if text = [] then [] else chunkLoop text chunk_size overlap 0 []

/-- Fuel-indexed variant of the chunking loop (each unit of fuel pays
for one loop iteration; `none` models non-termination within the given
fuel).  Used to state the termination claims. -/
def chunkLoopFuel : ℕ → List Char → ℕ → ℕ → ℕ → List (List Char) → Option (List (List Char))
  | 0, _, _, _, _, _ => none
  | fuel + 1, text, size, overlap, start, acc =>
    if start < text.length then
      chunkLoopFuel fuel text size overlap (nextStart start (chunkEnd text size start) overlap)
        (if chunkPiece text size start = [] then acc
         else acc ++ [collapseWS (chunkPiece text size start)])
    else some acc

/-! ## The batched re-ranker (`pinecone_utils.py`, lines 533–626) -/

/-- The external re-ranking call `pc.inference.rerank(...)` as an
oracle: given the documents, the query and `top_n`, it returns `none`
when the call raises, and `some data` otherwise, where each entry of
`data` is the text of a returned document (`Option.none` entries model
result items lacking the `document`/`text` keys).  `some []` models a
response with no data. -/
abbrev RerankApi := List String → String → ℕ → Option (List (Option String))

/-- `re_rank_once(docs, query, top_n)`: empty input returns empty;
`top_n` is clamped to `len(docs)`; a raised error or an empty response
falls back to the first `top_n` documents unranked; otherwise the texts
present in the response are extracted in order. -/
def re_rank_once (rr : RerankApi) (docs : List String) (query : String) (top_n : ℕ) :
    List String :=
  if docs = [] then []
  else
    match rr docs query (min top_n docs.length) with
    | none => docs.take (min top_n docs.length)
    | some data =>
      if data = [] then docs.take (min top_n docs.length)
      else data.filterMap id

/-- The slicing loop behind `docs[i:i+100]` for
`i in range(0, len(docs), 100)`, with an explicit iteration budget so
the recursion is structural: each iteration consumes at least one
element, so a budget of `len(docs)` never runs out. -/
def chunksOf100Go : ℕ → List String → List (List String)
  | 0, _ => []
  | _ + 1, [] => []
  | budget + 1, c :: t => ((c :: t).take 100) :: chunksOf100Go budget ((c :: t).drop 100)

/-- The batches `docs[i:i+100]` for `i in range(0, len(docs), 100)`
(`chunk_size = 100` in `re_rank_in_batches`). -/
def chunksOf100 (docs : List String) : List (List String) :=
  chunksOf100Go docs.length docs

/-- One batching pass of `re_rank_in_batches`: re-rank every batch of
100 keeping `partial_top = min(30, top_n)` results per batch, and
concatenate the per-batch results in order (`partial_res` in the
source). -/
def re_rank_pass (rr : RerankApi) (docs : List String) (query : String) (top_n : ℕ) :
    List String :=
  ((chunksOf100 docs).map fun c => re_rank_once rr c query (min 30 top_n)).flatten

/-- `re_rank_in_batches(docs, query, top_n)`, fuel-indexed (each unit of
fuel pays for one recursion level; `none` models non-termination within
the given fuel): empty input returns empty; otherwise run one batching
pass; when at most `chunk_size = 100` results remain, finish with a
single re-rank to `top_n`, else recurse on the concatenated results. -/
def re_rank_in_batches_fuel (rr : RerankApi) :
    ℕ → List String → String → ℕ → Option (List String)
  | 0, _, _, _ => none
  | fuel + 1, docs, query, top_n =>
    if docs = [] then some []
    else
      let res := re_rank_pass rr docs query top_n
      if res.length ≤ 100 then some (re_rank_once rr res query top_n)
      else re_rank_in_batches_fuel rr fuel res query top_n

/-- `re_rank_in_batches` as used by the orchestrator: the recursion is
run with fuel `len(docs) + 1`, which the termination analysis below
proves sufficient whenever the provider honours its `top_n` bound
(`RerankTopBound`); `[]` is returned in the unreachable out-of-fuel
case. -/
def re_rank_in_batches (rr : RerankApi) (docs : List String) (query : String) (top_n : ℕ) :
    List String :=
  (re_rank_in_batches_fuel rr (docs.length + 1) docs query top_n).getD []

/-- The provider contract for the re-rank call: a successful response
holds at most `top_n` items.  (`pc.inference.rerank` is documented to
return the `top_n` best matches.) -/
def RerankTopBound (rr : RerankApi) : Prop :=
  ∀ ds q n out, rr ds q n = some out → out.length ≤ n

/-! ## The retrieval orchestrator (`pinecone_utils.py`, lines 83–278, 480–531) -/

/-- The external collaborators of `interpret_and_search`, as oracles:

* `llm` — the raw text returned by `call_llm_to_get_filterJSON` for a
  query (that function catches its own errors and returns `"{}"`, so it
  is total);
* `parseJson` — `json.loads` on that text, `none` modelling a raised
  `json.JSONDecodeError`, `some` a successfully parsed filter object;
* `queryFrags` — the metadata of the matches returned by the
  dummy-vector index query in `apply_filter`, `none` modelling a raised
  provider error (the full stored list; `top_k` truncation is applied at
  the call site);
* `embedFrags` — likewise for the similarity query of
  `embedding_search`, per query text;
* `rrApi` — the re-rank call. -/
structure IoTEnv where
  llm : String → String
  parseJson : String → Option Filter
  queryFrags : Option (List Metadata)
  embedFrags : String → Option (List Metadata)
  rrApi : RerankApi

/-- `metadata.get("TEXT", "")`.  (Stored `TEXT` values are strings — the
data model's `Fragment.text`; a non-string value is rendered as the
empty string here.) -/
def getText (md : Metadata) : String :=
  match md.lookup "TEXT" with
  | some (.str s) => s
  | _ => ""

/-- `apply_filter(filter_dict, top_k)`: an empty filter returns no
documents; the index is queried with a dummy vector (any raised error is
caught, returning `[]`); an empty match list returns `[]`; otherwise the
texts of the matches passing the filter (and non-empty) are collected in
order. -/
def apply_filter (env : IoTEnv) (filter_dict : Filter) (top_k : ℕ) : List String :=
  if filter_dict = [] then []
  else
    match env.queryFrags with
    | none => []
    | some frags =>
      if frags = [] then []
      else
        (frags.take top_k).filterMap fun md =>
          if passes_filter md filter_dict then
            let t := getText md
            if t = "" then none else some t
          else none

/-- `embedding_search(query, top_k, re_rank_top)`: embed the query (the
embedding client never raises — it falls back to a zero vector), run the
similarity query (a raised error is caught, returning `[]`), collect the
non-empty match texts in order, and re-rank them. -/
def embedding_search (env : IoTEnv) (query : String) (top_k re_rank_top : ℕ) : List String :=
  match env.embedFrags query with
  | none => []
  | some frags =>
    if frags = [] then []
    else
      let docs := (frags.take top_k).filterMap fun md =>
        let t := getText md
        if t = "" then none else some t
      re_rank_in_batches env.rrApi docs query re_rank_top

/-- `interpret_and_search(user_query, top_k, re_rank_top)`: an empty or
all-whitespace query returns `([], False, False)` at once; otherwise the
LLM-produced filter text is parsed — a parse error, an empty filter, or
a filter with no matching documents all fall back to the embedding
search with flags `(False, True)`, while a filter with matches returns
the re-ranked matches with flags `(True, False)`.  (The surrounding
`except Exception` handler is unreachable in this model: every callee
catches its own errors.) -/
def interpret_and_search (env : IoTEnv) (user_query : String) (top_k re_rank_top : ℕ) :
    List String × Bool × Bool :=
  if pyStrip user_query = "" then ([], false, false)
  else
    match env.parseJson (env.llm user_query) with
    | none => (embedding_search env user_query top_k re_rank_top, false, true)
    | some filter_dict =>
      if filter_dict = [] then
        (embedding_search env user_query top_k re_rank_top, false, true)
      else
        let docs := apply_filter env filter_dict top_k
        if docs = [] then
          (embedding_search env user_query top_k re_rank_top, false, true)
        else
          (re_rank_in_batches env.rrApi docs user_query re_rank_top, true, false)

/-! ## The embedding clients (`embedding_utils.py` lines 16–84,
`embeddings_helper.py` lines 15–64) -/

/-- `Config.VECTOR_DIM` (`config.py`). -/
def VECTOR_DIM : ℕ := 1536

/-- The external embedding API `client.embeddings.create(...)` as an
oracle: `none` models a persistent failure (all retries exhausted),
`some vs` one vector per input text, in order. -/
abbrev EmbedApi := List String → Option (List (List ℚ))

/-- The provider contract for the embedding call: one vector per input
text. -/
def EmbedCountExact (api : EmbedApi) : Prop :=
  ∀ ts out, api ts = some out → out.length = ts.length

/-- `[t.strip() for t in text if t.strip()]` — the inputs actually sent
to the embedding API by `get_embedding_new`: stripped, with the blank
entries dropped. -/
def processedInputs (text : List String) : List String :=
  text.filterMap fun t => if pyStrip t = "" then none else some (pyStrip t)

/-- `text.replace("\n", " ")`. -/
def replaceNL (s : String) : String :=
  String.mk (s.toList.map fun c => if c = '\n' then ' ' else c)

/-- `[text.replace("\n", " ").strip() for text in texts]` followed by
dropping the blank results — the inputs actually sent to the embedding
API by `get_openai_embeddings`. -/
def processedInputsBQ (texts : List String) : List String :=
  texts.filterMap fun t =>
    if pyStrip (replaceNL t) = "" then none else some (pyStrip (replaceNL t))

/-- `get_embedding_new(text, ...)` of
`case_documents/utils/embedding_utils.py`, list-input case: an empty
list or all-blank entries raise `ValueError`; the inputs are stripped
and the blank ones dropped (`[t.strip() for t in text if t.strip()]`);
on persistent API failure a zero vector per (kept) input is returned
instead of raising. -/
def get_embedding_new_list (api : EmbedApi) (text : List String) :
    Except String (List (List ℚ)) :=
  if text = [] ∨ text.all (fun t => pyStrip t = "") then
    .error "La lista de textos no puede estar vacía"
  else
    match api (processedInputs text) with
    | some embeddings => .ok embeddings
    | none =>
      .ok (List.replicate (processedInputs text).length (List.replicate VECTOR_DIM (0 : ℚ)))

/-- `get_embedding_new(text, ...)`, single-string case: a blank string
raises `ValueError`; otherwise the API is called on `[text.strip()]` and
the first vector returned (a zero vector on persistent failure). -/
def get_embedding_new_str (api : EmbedApi) (text : String) : Except String (List ℚ) :=
  if pyStrip text = "" then .error "El texto no puede estar vacío"
  else
    match api [pyStrip text] with
    | some embeddings => .ok (embeddings.headD [])
    | none => .ok (List.replicate VECTOR_DIM (0 : ℚ))

/-- `get_openai_embeddings(texts, ...)` of
`case_bigquery_sql/helpers/embeddings_helper.py` (strict variant): an
empty list raises; each text is newline-collapsed and stripped and the
blank results dropped; if nothing remains it raises; an API failure is
re-raised (no zero-vector fallback). -/
def get_openai_embeddings (api : EmbedApi) (texts : List String) :
    Except String (List (List ℚ)) :=
  if texts = [] then .error "La lista de textos no puede estar vacía"
  else
    if processedInputsBQ texts = [] then
      .error "Todos los textos quedaron vacíos después del procesamiento"
    else
      match api (processedInputsBQ texts) with
      | some embeddings => .ok embeddings
      | none => .error "Error al generar embeddings"

/-! ## Concrete instances used by witnesses and counterexamples -/

/-- A re-rank oracle whose every call raises. -/
def rrNoneApi : RerankApi := fun _ _ _ => none

/-- The failing oracle vacuously honours the `top_n` bound. -/
lemma rrNoneApi_bound : RerankTopBound rrNoneApi := by
  intro ds q n out h
  simp [rrNoneApi] at h

/-- A candidate set of 350 documents (the regression size named by the
spec for the re-ranking recursion). -/
def docs350 : List String := List.replicate 350 "d"

lemma docs350_ne_nil : docs350 ≠ [] := by
  intro h
  have hl : docs350.length = 350 := by
    rw [docs350]
    exact List.length_replicate 350 "d"
  rw [h] at hl
  simp at hl

/-- An embedding oracle returning exactly one (constant) vector per
input text. -/
def apiOnePerText : EmbedApi := fun ts => some (ts.map fun _ => [0])

/-- `apiOnePerText` honours the one-vector-per-input contract. -/
lemma apiOnePerText_count : EmbedCountExact apiOnePerText := by
  intro ts out h
  simp [apiOnePerText] at h
  simp [← h]

/-- A concrete environment realising the spec's end-to-end scenario:
the LLM answers with a fixed token that parses to the filter
`battery_level < 20`, and the index holds three fragments with battery
levels 15, 50 and 5. -/
def envDemo : IoTEnv where
  llm := fun _ => "FILTER"
  parseJson := fun s =>
    if s = "FILTER" then some [("battery_level", [("$lt", PyVal.num 20)])] else none
  queryFrags := some
    [ [("battery_level", PyVal.num 15), ("TEXT", PyVal.str "frag1")]
    , [("battery_level", PyVal.num 50), ("TEXT", PyVal.str "frag2")]
    , [("battery_level", PyVal.num 5), ("TEXT", PyVal.str "frag3")] ]
  embedFrags := fun _ => some []
  rrApi := rrNoneApi

/-! ## Auxiliary lemmas -/

lemma length_dropWhile_le' (p : Char → Bool) (l : List Char) :
    (l.dropWhile p).length ≤ l.length := by
  induction l with
  | nil => simp
  | cons c t ih =>
    rw [List.dropWhile]
    by_cases h : p c
    · simp only [h]
      exact ih.trans (by simp)
    · simp [h]

lemma length_pyStripL_le (l : List Char) : (pyStripL l).length ≤ l.length := by
  unfold pyStripL
  calc ((l.dropWhile isPyWS).reverse.dropWhile isPyWS).reverse.length
      = ((l.dropWhile isPyWS).reverse.dropWhile isPyWS).length := by simp
    _ ≤ (l.dropWhile isPyWS).reverse.length := length_dropWhile_le' _ _
    _ = (l.dropWhile isPyWS).length := by simp
    _ ≤ l.length := length_dropWhile_le' _ _

lemma length_collapseWSGo_le (b : Bool) (l : List Char) :
    (collapseWSGo b l).length ≤ l.length := by
  induction l generalizing b with
  | nil => simp [collapseWSGo]
  | cons c t ih =>
    rw [collapseWSGo]
    by_cases h : isPyWS c
    · by_cases hb : b <;> simp only [h, hb, if_true, if_false] <;>
        first
          | exact (ih true).trans (by simp)
          | simpa using ih true
    · simp only [h, if_false, List.length_cons]
      exact Nat.succ_le_succ (ih false)

lemma length_collapseWS_le (l : List Char) : (collapseWS l).length ≤ l.length :=
  length_collapseWSGo_le false l

lemma isPrefixOf_length_le :
    ∀ (p l : List Char), p.isPrefixOf l = true → p.length ≤ l.length
  | [], _, _ => by simp
  | _ :: _, [], h => by simp [List.isPrefixOf] at h
  | a :: p, b :: l, h => by
    rw [List.isPrefixOf, Bool.and_eq_true] at h
    simpa using isPrefixOf_length_le p l h.2

lemma findSub_bound :
    ∀ (l pat : List Char) (i : ℕ), findSub l pat = some i → i + pat.length ≤ l.length
  | [], pat, i, h => by
    rw [findSub] at h
    split at h
    · next hp =>
      cases h
      simpa using isPrefixOf_length_le pat [] hp
    · cases h
  | c :: t, pat, i, h => by
    rw [findSub] at h
    split at h
    · next hp =>
      cases h
      simpa using isPrefixOf_length_le pat (c :: t) hp
    · next =>
      rcases Option.map_eq_some'.mp h with ⟨j, hj, rfl⟩
      have := findSub_bound t pat j hj
      simp only [List.length_cons]
      omega

lemma rfindSub_bound (l pat : List Char) (i : ℕ) (h : rfindSub l pat = some i) :
    i + pat.length ≤ l.length := by
  unfold rfindSub at h
  rcases List.mem_getLast?_eq_getLast (show i ∈ _ from h) with ⟨hne, hi⟩
  have hmem : i ∈ (List.range (l.length + 1)).filter fun j => pat.isPrefixOf (l.drop j) :=
    hi ▸ List.getLast_mem hne
  rw [List.mem_filter] at hmem
  have hp := isPrefixOf_length_le pat (l.drop i) hmem.2
  have hilt : i < l.length + 1 := List.mem_range.mp hmem.1
  rw [List.length_drop] at hp
  omega

lemma sliceL_length_le (l : List Char) (a b : ℕ) : (sliceL l a b).length ≤ b - a := by
  unfold sliceL
  simp only [List.length_take]
  omega

lemma find_good_break_point_le (s : List Char) (tp : ℕ) :
    find_good_break_point s tp ≤ tp + 100 := by
  unfold find_good_break_point
  cases h1 : breakChars.findSome? (fun b =>
      (findSub (sliceL s tp (min (tp + 100) s.length)) b).map fun p => tp + p + b.length) with
  | some r =>
    show r ≤ tp + 100
    rcases List.exists_of_findSome?_eq_some h1 with ⟨b, _hb, hfb⟩
    rcases Option.map_eq_some'.mp hfb with ⟨p, hp, hr⟩
    have hb1 := findSub_bound _ b p hp
    have hb2 := sliceL_length_le s tp (min (tp + 100) s.length)
    omega
  | none =>
    cases h2 : breakChars.findSome? (fun b =>
        (rfindSub (sliceL s (tp - 100) tp) b).map
          fun p => tp - ((sliceL s (tp - 100) tp).length - p - b.length)) with
    | some r =>
      show r ≤ tp + 100
      rcases List.exists_of_findSome?_eq_some h2 with ⟨b, _hb, hfb⟩
      rcases Option.map_eq_some'.mp hfb with ⟨p, hp, hr⟩
      omega
    | none =>
      cases h3 : findSub (s.drop tp) [' '] with
      | some i =>
        show (if tp + i < tp + 50 then tp + i + 1 else tp) ≤ tp + 100
        split <;> omega
      | none =>
        show tp ≤ tp + 100
        omega

lemma chunkEnd_le (text : List Char) (size start : ℕ) :
    chunkEnd text size start ≤ start + size + 100 := by
  unfold chunkEnd
  split
  · have h1 := find_good_break_point_le text (min (start + size) text.length)
    omega
  · omega

lemma chunkPiece_length_le (text : List Char) (size start : ℕ) :
    (chunkPiece text size start).length ≤ size + 100 := by
  unfold chunkPiece
  have h1 := length_pyStripL_le (sliceL text start (chunkEnd text size start))
  have h2 := sliceL_length_le text start (chunkEnd text size start)
  have h3 := chunkEnd_le text size start
  omega

lemma chunkLoop_frag_le (text : List Char) (size ov : ℕ) :
    ∀ (n start : ℕ) (acc : List (List Char)),
      text.length - start ≤ n →
      (∀ c ∈ acc, c.length ≤ size + 100) →
      ∀ c ∈ chunkLoop text size ov start acc, c.length ≤ size + 100 := by
  intro n
  induction n with
  | zero =>
    intro start acc hle hacc c hc
    rw [chunkLoop] at hc
    rw [dif_neg (by omega)] at hc
    exact hacc c hc
  | succ m ih =>
    intro start acc hle hacc c hc
    rw [chunkLoop] at hc
    by_cases h : start < text.length
    · rw [dif_pos h] at hc
      refine ih (nextStart start (chunkEnd text size start) ov) _ ?_ ?_ c hc
      · simp only [nextStart]
        omega
      · intro c' hc'
        split at hc'
        · exact hacc c' hc'
        · rcases List.mem_append.mp hc' with hmem | hmem
          · exact hacc c' hmem
          · rw [List.mem_singleton] at hmem
            subst hmem
            exact (length_collapseWS_le _).trans (chunkPiece_length_le text size start)
    · rw [dif_neg h] at hc
      exact hacc c hc

lemma chunkLoopFuel_eq (text : List Char) (size ov : ℕ) :
    ∀ (fuel start : ℕ) (acc : List (List Char)),
      text.length - start < fuel →
      chunkLoopFuel fuel text size ov start acc = some (chunkLoop text size ov start acc) := by
  intro fuel
  induction fuel with
  | zero => omega
  | succ m ih =>
    intro start acc hlt
    rw [chunkLoopFuel, chunkLoop]
    by_cases h : start < text.length
    · rw [if_pos h, dif_pos h]
      exact ih _ _ (by simp only [nextStart]; omega)
    · rw [if_neg h, dif_neg h]

lemma re_rank_once_length_le (rr : RerankApi) (hrr : RerankTopBound rr)
    (docs : List String) (q : String) (n : ℕ) :
    (re_rank_once rr docs q n).length ≤ n := by
  unfold re_rank_once
  split
  · simp
  · cases h : rr docs q (min n docs.length) with
    | none =>
      show (docs.take (min n docs.length)).length ≤ n
      simp only [List.length_take]
      omega
    | some data =>
      show (if data = [] then docs.take (min n docs.length) else data.filterMap id).length ≤ n
      split
      · simp only [List.length_take]
        omega
      · have h1 := List.length_filterMap_le (id : Option String → Option String) data
        have h2 := hrr docs q (min n docs.length) data h
        omega

lemma chunksOf100Go_count_le :
    ∀ (budget : ℕ) (l : List String),
      (chunksOf100Go budget l).length ≤ (l.length + 99) / 100 := by
  intro budget
  induction budget with
  | zero =>
    intro l
    simp [chunksOf100Go]
  | succ m ih =>
    intro l
    match l with
    | [] => simp [chunksOf100Go]
    | c :: t =>
      rw [chunksOf100Go]
      have hih := ih ((c :: t).drop 100)
      simp only [List.length_drop, List.length_cons] at hih ⊢
      omega

lemma chunksOf100_count_le (l : List String) :
    (chunksOf100 l).length ≤ (l.length + 99) / 100 :=
  chunksOf100Go_count_le l.length l

lemma chunksOf100Go_flatten :
    ∀ (budget : ℕ) (l : List String), l.length ≤ budget →
      (chunksOf100Go budget l).flatten = l := by
  intro budget
  induction budget with
  | zero =>
    intro l hl
    have : l = [] := List.length_eq_zero.mp (by omega)
    subst this
    simp [chunksOf100Go]
  | succ m ih =>
    intro l hl
    match l with
    | [] => simp [chunksOf100Go]
    | c :: t =>
      rw [chunksOf100Go]
      rw [List.flatten_cons, ih ((c :: t).drop 100) (by simp at hl ⊢; omega)]
      exact List.take_append_drop 100 (c :: t)

/-- Sanity check of the batching model: the batches partition the
document list — nothing is dropped or duplicated. -/
lemma chunksOf100_flatten (l : List String) : (chunksOf100 l).flatten = l :=
  chunksOf100Go_flatten l.length l le_rfl

lemma length_flatten_le (k : ℕ) :
    ∀ (ls : List (List String)), (∀ l ∈ ls, l.length ≤ k) →
      ls.flatten.length ≤ k * ls.length := by
  intro ls
  induction ls with
  | nil => simp
  | cons c t ih =>
    intro h
    simp only [List.flatten_cons, List.length_append, List.length_cons]
    have h1 := h c (by simp)
    have h2 := ih fun l hl => h l (by simp [hl])
    calc c.length + t.flatten.length ≤ k + k * t.length := by omega
      _ = k * (t.length + 1) := by ring

lemma re_rank_pass_length_le (rr : RerankApi) (hrr : RerankTopBound rr)
    (docs : List String) (q : String) (n : ℕ) :
    (re_rank_pass rr docs q n).length ≤ 30 * (chunksOf100 docs).length := by
  unfold re_rank_pass
  have h1 : ∀ l ∈ (chunksOf100 docs).map fun c => re_rank_once rr c q (min 30 n),
      l.length ≤ 30 := by
    intro l hl
    rcases List.mem_map.mp hl with ⟨c, _hc, rfl⟩
    have := re_rank_once_length_le rr hrr c q (min 30 n)
    omega
  have h2 := length_flatten_le 30 _ h1
  simpa using h2

lemma re_rank_pass_lt (rr : RerankApi) (hrr : RerankTopBound rr)
    (docs : List String) (q : String) (n : ℕ) (hbig : 100 < docs.length) :
    (re_rank_pass rr docs q n).length < docs.length := by
  have h1 := re_rank_pass_length_le rr hrr docs q n
  have h2 := chunksOf100_count_le docs
  omega

lemma re_rank_pass_small (rr : RerankApi) (hrr : RerankTopBound rr)
    (docs : List String) (q : String) (n : ℕ) (hsmall : docs.length ≤ 100) :
    (re_rank_pass rr docs q n).length ≤ 100 := by
  have h1 := re_rank_pass_length_le rr hrr docs q n
  have h2 := chunksOf100_count_le docs
  omega

lemma re_rank_fuel_some (rr : RerankApi) (hrr : RerankTopBound rr) :
    ∀ (fuel : ℕ) (docs : List String) (q : String) (n : ℕ), docs.length < fuel →
      ∃ out, re_rank_in_batches_fuel rr fuel docs q n = some out := by
  intro fuel
  induction fuel with
  | zero => omega
  | succ m ih =>
    intro docs q n hlt
    rw [re_rank_in_batches_fuel]
    by_cases hnil : docs = []
    · rw [if_pos hnil]
      exact ⟨[], rfl⟩
    · rw [if_neg hnil]
      by_cases hsmall : (re_rank_pass rr docs q n).length ≤ 100
      · rw [if_pos hsmall]
        exact ⟨_, rfl⟩
      · rw [if_neg hsmall]
        have hbig : 100 < docs.length := by
          by_contra hc
          exact hsmall (re_rank_pass_small rr hrr docs q n (by omega))
        have := re_rank_pass_lt rr hrr docs q n hbig
        exact ih _ q n (by omega)

lemma filterMap_eq_nil_of_forall {α β : Type} (f : α → Option β) :
    ∀ l : List α, (∀ a ∈ l, f a = none) → l.filterMap f = [] := by
  intro l
  induction l with
  | nil => simp
  | cons c t ih =>
    intro h
    rw [List.filterMap_cons, h c (by simp)]
    exact ih fun a ha => h a (by simp [ha])

lemma filterMap_ne_nil_of_mem {α β : Type} (f : α → Option β) {l : List α} (a : α) (b : β)
    (ha : a ∈ l) (hb : f a = some b) : l.filterMap f ≠ [] := by
  intro hnil
  induction l with
  | nil => simp at ha
  | cons c t ih =>
    rw [List.filterMap_cons] at hnil
    rcases List.mem_cons.mp ha with rfl | hmem
    · rw [hb] at hnil
      simp at hnil
    · cases h : f c with
      | none =>
        rw [h] at hnil
        exact ih hmem hnil
      | some b' =>
        rw [h] at hnil
        simp at hnil

lemma apply_filter_eq_nil (env : IoTEnv) (filt : Filter) (tk : ℕ)
    (h : ∀ frags, env.queryFrags = some frags →
      ∀ md ∈ frags.take tk, passes_filter md filt = false) :
    apply_filter env filt tk = [] := by
  unfold apply_filter
  by_cases hf : filt = []
  · rw [if_pos hf]
  · rw [if_neg hf]
    cases hq : env.queryFrags with
    | none => rfl
    | some frags =>
      show (if frags = [] then []
        else (frags.take tk).filterMap fun md =>
          if passes_filter md filt then
            if getText md = "" then none else some (getText md)
          else none) = []
      by_cases hfr : frags = []
      · rw [if_pos hfr]
      · rw [if_neg hfr]
        exact filterMap_eq_nil_of_forall _ _ fun md hmd => by
          rw [h frags hq md hmd]
          simp

lemma apply_filter_ne_nil (env : IoTEnv) (filt : Filter) (tk : ℕ) (frags : List Metadata)
    (md : Metadata) (hfne : filt ≠ []) (hq : env.queryFrags = some frags)
    (hmd : md ∈ frags.take tk) (hp : passes_filter md filt = true) (ht : getText md ≠ "") :
    apply_filter env filt tk ≠ [] := by
  unfold apply_filter
  rw [if_neg hfne, hq]
  have hfr : frags ≠ [] := by
    intro hcontra
    subst hcontra
    simp at hmd
  show (if frags = [] then []
    else (frags.take tk).filterMap fun md =>
      if passes_filter md filt then
        if getText md = "" then none else some (getText md)
      else none) ≠ []
  rw [if_neg hfr]
  exact filterMap_ne_nil_of_mem _ md (getText md) hmd (by simp [hp, ht])

/-! ## Claim theorems -/

/-- C2: for every non-empty query, if filter interpretation yields the
empty filter, or the LLM output fails to parse as JSON, or the inferred
filter matches zero stored fragments, then `interpret_and_search`
returns the embedding-similarity result with `usedFilter = false` and
`usedFallback = true`; conversely, when the parsed filter is non-empty
and matches at least one stored fragment (with non-empty text, per the
data-model invariant), it returns the re-ranked filter matches with
`usedFilter = true` and `usedFallback = false`. -/
theorem claim_C2_orchestrator_fallback_flags (env : IoTEnv) (q : String) (tk rt : ℕ)
    (hq : pyStrip q ≠ "") :
    (env.parseJson (env.llm q) = none →
      interpret_and_search env q tk rt = (embedding_search env q tk rt, false, true)) ∧
    (env.parseJson (env.llm q) = some [] →
      interpret_and_search env q tk rt = (embedding_search env q tk rt, false, true)) ∧
    (∀ filt, env.parseJson (env.llm q) = some filt →
      (∀ frags, env.queryFrags = some frags →
        ∀ md ∈ frags.take tk, passes_filter md filt = false) →
      interpret_and_search env q tk rt = (embedding_search env q tk rt, false, true)) ∧
    (∀ filt frags md, env.parseJson (env.llm q) = some filt → filt ≠ [] →
      env.queryFrags = some frags → md ∈ frags.take tk →
      passes_filter md filt = true → getText md ≠ "" →
      interpret_and_search env q tk rt =
        (re_rank_in_batches env.rrApi (apply_filter env filt tk) q rt, true, false)) := by
  refine ⟨?_, ?_, ?_, ?_⟩
  · intro hp
    unfold interpret_and_search
    rw [if_neg hq, hp]
  · intro hp
    unfold interpret_and_search
    rw [if_neg hq, hp]
    show (if ([] : Filter) = [] then _ else _) = _
    rw [if_pos rfl]
  · intro filt hp hall
    unfold interpret_and_search
    rw [if_neg hq, hp]
    by_cases hf : filt = []
    · subst hf
      show (if ([] : Filter) = [] then _ else _) = _
      rw [if_pos rfl]
    · show (if filt = [] then _ else _) = _
      rw [if_neg hf, if_pos (apply_filter_eq_nil env filt tk hall)]
  · intro filt frags md hp hfne hqf hmd hpass htext
    unfold interpret_and_search
    rw [if_neg hq, hp]
    show (if filt = [] then _ else _) = _
    rw [if_neg hfne,
      if_neg (apply_filter_ne_nil env filt tk frags md hfne hqf hmd hpass htext)]

/-- C2 witness: on the concrete demo environment (filter
`battery_level < 20` against fragments with levels 15, 50, 5), the
filter path is taken with `usedFilter = true`, `usedFallback = false`. -/
theorem claim_C2_witness :
    interpret_and_search envDemo "devices with battery below 20" 2000 200 =
      (re_rank_in_batches envDemo.rrApi
        (apply_filter envDemo [("battery_level", [("$lt", PyVal.num 20)])] 2000)
        "devices with battery below 20" 200, true, false) :=
  (claim_C2_orchestrator_fallback_flags envDemo "devices with battery below 20" 2000 200
      (by decide)).2.2.2
    [("battery_level", [("$lt", PyVal.num 20)])]
    [ [("battery_level", PyVal.num 15), ("TEXT", PyVal.str "frag1")]
    , [("battery_level", PyVal.num 50), ("TEXT", PyVal.str "frag2")]
    , [("battery_level", PyVal.num 5), ("TEXT", PyVal.str "frag3")] ]
    [("battery_level", PyVal.num 15), ("TEXT", PyVal.str "frag1")]
    (by decide) (by decide) (by decide) (by decide) (by decide) (by decide)

/-- C8 counterexample: retrieval on the empty query does not raise — it
returns the empty result with both flags `false`, contradicting the
claim that a malformed (empty) query raises an error to the caller. -/
theorem claim_C8_counterexample :
    interpret_and_search envDemo "" 2000 200 = ([], false, false) := by
  decide

/-- C8 amended: an empty or all-whitespace query returns
`([], usedFilter = false, usedFallback = false)` immediately instead of
raising; for every query `interpret_and_search` returns a result (every
internal provider error is caught and degrades to the fallback). -/
theorem claim_C8_amended_blank_query_returns (env : IoTEnv) (q : String) (tk rt : ℕ)
    (hq : pyStrip q = "") :
    interpret_and_search env q tk rt = ([], false, false) := by
  unfold interpret_and_search
  rw [if_pos hq]

/-- C8 witness: an all-whitespace query on the demo environment. -/
theorem claim_C8_witness :
    interpret_and_search envDemo "   " 2000 200 = ([], false, false) :=
  claim_C8_amended_blank_query_returns envDemo "   " 2000 200 (by decide)

/-- C3: the comparison operators `$lt`/`$gt`/`$lte`/`$gte` numerically
coerce the stored value and yield `false` when the field is absent or
the coercion fails; when the coercion succeeds they compare numerically;
in particular `level < 20` holds for `level = "15"`, fails for
`level = "abc"` and fails when `level` is missing. -/
theorem claim_C3_numeric_comparison_ops :
    (∀ (md : Metadata) (f : String) (q : ℚ), md.lookup f = none →
      check_lt md f (.num q) = false ∧ check_gt md f (.num q) = false ∧
      check_lte md f (.num q) = false ∧ check_gte md f (.num q) = false) ∧
    (∀ (md : Metadata) (f : String) (q : ℚ) (mv : PyVal),
      md.lookup f = some mv → metaNum? mv = none →
      check_lt md f (.num q) = false ∧ check_gt md f (.num q) = false ∧
      check_lte md f (.num q) = false ∧ check_gte md f (.num q) = false) ∧
    (∀ (md : Metadata) (f : String) (q : ℚ) (mv : PyVal) (x : ℚ),
      md.lookup f = some mv → metaNum? mv = some x →
      check_lt md f (.num q) = decide (x < q) ∧ check_gt md f (.num q) = decide (x > q) ∧
      check_lte md f (.num q) = decide (x ≤ q) ∧ check_gte md f (.num q) = decide (x ≥ q)) ∧
    passes_filter [("level", PyVal.str "15")] [("level", [("$lt", PyVal.num 20)])] = true ∧
    passes_filter [("level", PyVal.str "abc")] [("level", [("$lt", PyVal.num 20)])] = false ∧
    passes_filter [] [("level", [("$lt", PyVal.num 20)])] = false := by
  refine ⟨?_, ?_, ?_, by decide, by decide, by decide⟩
  · intro md f q h
    refine ⟨?_, ?_, ?_, ?_⟩ <;> simp [check_lt, check_gt, check_lte, check_gte, h]
  · intro md f q mv h1 h2
    refine ⟨?_, ?_, ?_, ?_⟩ <;> simp [check_lt, check_gt, check_lte, check_gte, h1, h2]
  · intro md f q mv x h1 h2
    refine ⟨?_, ?_, ?_, ?_⟩ <;>
      simp [check_lt, check_gt, check_lte, check_gte, opNum?, h1, h2]

/-- C3 witness: the operators at a missing field. -/
theorem claim_C3_witness :
    check_lt [] "level" (PyVal.num 20) = false ∧
    check_gt [] "level" (PyVal.num 20) = false ∧
    check_lte [] "level" (PyVal.num 20) = false ∧
    check_gte [] "level" (PyVal.num 20) = false :=
  claim_C3_numeric_comparison_ops.1 [] "level" 20 rfl

/-- C10: `passes_filter` on the empty filter is always `true`; a
per-field condition containing none of the recognized operators imposes
no constraint; exactly the first operator present in the fixed order
`$eq, $lt, $gt, $lte, $gte` is evaluated; and a document passes when
every field's condition passes. -/
theorem claim_C10_unrecognized_ops_no_constraint :
    (∀ md : Metadata, passes_filter md [] = true) ∧
    (∀ (md : Metadata) (f : String) (cond : Condition),
      cond.lookup "$eq" = none → cond.lookup "$lt" = none → cond.lookup "$gt" = none →
      cond.lookup "$lte" = none → cond.lookup "$gte" = none →
      condCheck md f cond = true) ∧
    (∀ (md : Metadata) (f : String) (cond : Condition) (v : PyVal),
      cond.lookup "$eq" = some v → condCheck md f cond = check_eq md f v) ∧
    (∀ (md : Metadata) (f : String) (cond : Condition) (v : PyVal),
      cond.lookup "$eq" = none → cond.lookup "$lt" = some v →
      condCheck md f cond = check_lt md f v) ∧
    (∀ (md : Metadata) (f : String) (cond : Condition) (v : PyVal),
      cond.lookup "$eq" = none → cond.lookup "$lt" = none → cond.lookup "$gt" = some v →
      condCheck md f cond = check_gt md f v) ∧
    (∀ (md : Metadata) (f : String) (cond : Condition) (v : PyVal),
      cond.lookup "$eq" = none → cond.lookup "$lt" = none → cond.lookup "$gt" = none →
      cond.lookup "$lte" = some v → condCheck md f cond = check_lte md f v) ∧
    (∀ (md : Metadata) (f : String) (cond : Condition) (v : PyVal),
      cond.lookup "$eq" = none → cond.lookup "$lt" = none → cond.lookup "$gt" = none →
      cond.lookup "$lte" = none → cond.lookup "$gte" = some v →
      condCheck md f cond = check_gte md f v) ∧
    (∀ (md : Metadata) (filt : Filter),
      (∀ fc ∈ filt, condCheck md fc.1 fc.2 = true) → passes_filter md filt = true) := by
  refine ⟨?_, ?_, ?_, ?_, ?_, ?_, ?_, ?_⟩
  · intro md
    rfl
  · intro md f cond h1 h2 h3 h4 h5
    simp [condCheck, h1, h2, h3, h4, h5]
  · intro md f cond v h1
    simp [condCheck, h1]
  · intro md f cond v h1 h2
    simp [condCheck, h1, h2]
  · intro md f cond v h1 h2 h3
    simp [condCheck, h1, h2, h3]
  · intro md f cond v h1 h2 h3 h4
    simp [condCheck, h1, h2, h3, h4]
  · intro md f cond v h1 h2 h3 h4 h5
    simp [condCheck, h1, h2, h3, h4, h5]
  · intro md filt h
    simpa [passes_filter, List.all_eq_true] using h

/-- C10 witness: a condition with only an unrecognized operator is
satisfied by the empty metadata. -/
theorem claim_C10_witness :
    condCheck [] "f" [("$like", PyVal.num 1)] = true :=
  claim_C10_unrecognized_ops_no_constraint.2.1 [] "f" [("$like", PyVal.num 1)]
    rfl rfl rfl rfl rfl

/-- C1: for every non-empty document list, query and `top_n`, the
batched re-ranking recursion terminates whenever the re-rank provider
honours its `top_n` bound: one batching pass on a working set larger
than the single-batch limit (100) is strictly smaller than the working
set (at most 30 kept per batch), and fuel `len(docs) + 1` suffices for
the whole recursion to produce a result. -/
theorem claim_C1_rerank_recursion_terminates (rr : RerankApi) (hrr : RerankTopBound rr)
    (docs : List String) (q : String) (top_n : ℕ) (_hne : docs ≠ []) :
    (100 < docs.length → (re_rank_pass rr docs q top_n).length < docs.length) ∧
    ∃ out, re_rank_in_batches_fuel rr (docs.length + 1) docs q top_n = some out :=
  ⟨fun hbig => re_rank_pass_lt rr hrr docs q top_n hbig,
   re_rank_fuel_some rr hrr (docs.length + 1) docs q top_n (by omega)⟩

/-- C1 witness: 350 documents with an always-failing provider (which
vacuously honours the `top_n` bound). -/
theorem claim_C1_witness :
    (100 < docs350.length → (re_rank_pass rrNoneApi docs350 "q" 200).length < docs350.length) ∧
    ∃ out, re_rank_in_batches_fuel rrNoneApi (docs350.length + 1) docs350 "q" 200 = some out :=
  claim_C1_rerank_recursion_terminates rrNoneApi rrNoneApi_bound docs350 "q" 200
    docs350_ne_nil

/-- C6: when the external re-ranking call raises or returns no data,
`re_rank_once` returns the first `min(top_n, len(docs))` documents in
their original order (never propagating the error — in this model it is
a total function); and the re-ranker applied to an empty list returns
the empty list. -/
theorem claim_C6_rerank_failure_degrades (rr : RerankApi) (docs : List String)
    (q : String) (top_n : ℕ) (hne : docs ≠ [])
    (hfail : rr docs q (min top_n docs.length) = none ∨
             rr docs q (min top_n docs.length) = some []) :
    re_rank_once rr docs q top_n = docs.take (min top_n docs.length) ∧
    re_rank_once rr [] q top_n = [] ∧
    re_rank_in_batches rr [] q top_n = [] := by
  refine ⟨?_, by simp [re_rank_once], by simp [re_rank_in_batches, re_rank_in_batches_fuel]⟩
  unfold re_rank_once
  rw [if_neg hne]
  rcases hfail with h | h
  · rw [h]
  · rw [h]
    show (if ([] : List (Option String)) = [] then docs.take (min top_n docs.length)
      else ([] : List (Option String)).filterMap id) = docs.take (min top_n docs.length)
    rw [if_pos rfl]

/-- C6 witness: a three-document list with an always-failing provider
and `top_n = 2`. -/
theorem claim_C6_witness :
    re_rank_once rrNoneApi ["a", "b", "c"] "q" 2 =
      (["a", "b", "c"].take (min 2 (["a", "b", "c"] : List String).length)) ∧
    re_rank_once rrNoneApi [] "q" 2 = [] ∧
    re_rank_in_batches rrNoneApi [] "q" 2 = [] :=
  claim_C6_rerank_failure_degrades rrNoneApi ["a", "b", "c"] "q" 2 (by decide) (Or.inl rfl)

/-- C4: the chunking loop terminates for every text, `chunk_size` and
`overlap`: the cursor update `max(start + 1, end - overlap)` strictly
exceeds the previous cursor, and fuel `len(text) + 1` suffices for the
fuel-indexed loop to produce the (total) loop's result. -/
theorem claim_C4_chunk_text_terminates (text : List Char) (size overlap : ℕ)
    (_hsz : 0 < size) :
    (∀ start e, start < nextStart start e overlap) ∧
    chunkLoopFuel (text.length + 1) text size overlap 0 [] =
      some (chunkLoop text size overlap 0 []) :=
  ⟨fun start e => by simp only [nextStart]; omega,
   chunkLoopFuel_eq text size overlap (text.length + 1) 0 [] (by omega)⟩

/-- C4 witness: the cursor advances and the loop finishes on a concrete
text even with `overlap ≥ chunk_size`. -/
theorem claim_C4_witness :
    0 < nextStart 0 7 5 ∧
    chunkLoopFuel ("ab".toList.length + 1) "ab".toList 1 5 0 [] =
      some (chunkLoop "ab".toList 1 5 0 []) :=
  ⟨(claim_C4_chunk_text_terminates "ab".toList 1 5 (by decide)).1 0 7,
   (claim_C4_chunk_text_terminates "ab".toList 1 5 (by decide)).2⟩

/-- C5: every fragment emitted by `chunk_text` has length at most
`chunk_size + 100` (the forward break-point search never extends a
window by more than 100 characters). -/
theorem claim_C5_fragment_length_bound (text : List Char) (size overlap : ℕ)
    (_hne : text ≠ []) (_hsz : 0 < size) :
    ∀ c ∈ chunk_text text size overlap, c.length ≤ size + 100 := by
  intro c hc
  unfold chunk_text at hc
  split at hc
  · simp at hc
  · exact chunkLoop_frag_le text size overlap text.length 0 []
      (by omega) (by simp) c hc

/-- Evaluation bridge for the well-founded chunking loop: a concrete
run of the fuel-indexed loop determines `chunk_text`. -/
lemma chunk_text_eval (text : List Char) (size overlap : ℕ) (out : List (List Char))
    (hne : text ≠ [])
    (h : chunkLoopFuel (text.length + 1) text size overlap 0 [] = some out) :
    chunk_text text size overlap = out := by
  unfold chunk_text
  rw [if_neg hne]
  exact Option.some.inj
    ((chunkLoopFuel_eq text size overlap (text.length + 1) 0 [] (by omega)).symm.trans h)

/-- C5 witness: the first fragment of a concrete chunking run. -/
theorem claim_C5_witness : ("hel".toList).length ≤ 3 + 100 :=
  claim_C5_fragment_length_bound "hello".toList 3 1 (by decide) (by decide)
    "hel".toList
    (by rw [chunk_text_eval "hello".toList 3 1
        [['h', 'e', 'l'], ['l', 'l', 'o'], ['o']] (by decide) (by decide)]; decide)

/-- C9 counterexample: `chunk_text` performs no parameter validation —
with `overlap = 5 ≥ chunk_size = 2` it produces fragments instead of
failing with a `ConfigurationError` (no such error exists anywhere in
the code). -/
theorem claim_C9_counterexample :
    chunk_text "abcdef".toList 2 5 =
      [['a', 'b'], ['b', 'c'], ['c', 'd'], ['d', 'e'], ['e', 'f'], ['f']] :=
  chunk_text_eval "abcdef".toList 2 5 _ (by decide) (by decide)

/-- C9 amended: `chunk_text` accepts every `chunk_size` and `overlap`
without validation; even for `overlap ≥ chunk_size` it terminates and
returns the fragments of the windowing loop. -/
theorem claim_C9_amended_no_validation (text : List Char) (size overlap : ℕ)
    (_hov : size ≤ overlap) :
    chunkLoopFuel (text.length + 1) text size overlap 0 [] =
      some (chunk_text text size overlap) := by
  unfold chunk_text
  by_cases hne : text = []
  · subst hne
    rw [if_pos rfl]
    rfl
  · rw [if_neg hne]
    exact chunkLoopFuel_eq text size overlap (text.length + 1) 0 [] (by omega)

/-- C9 witness: the amended behaviour at `chunk_size = 2`,
`overlap = 5`. -/
theorem claim_C9_witness :
    chunkLoopFuel ("abcdef".toList.length + 1) "abcdef".toList 2 5 0 [] =
      some (chunk_text "abcdef".toList 2 5) :=
  claim_C9_amended_no_validation "abcdef".toList 2 5 (by decide)

lemma processedInputs_length (texts : List String) :
    (processedInputs texts).length = texts.countP fun t => pyStrip t ≠ "" := by
  induction texts with
  | nil => rfl
  | cons c t ih =>
    unfold processedInputs at ih ⊢
    rw [List.filterMap_cons]
    by_cases h : pyStrip c = ""
    · rw [if_pos h]
      simp [List.countP_cons, h, ih]
    · rw [if_neg h]
      simp [List.countP_cons, h, ih]

/-- C7 counterexample: with a provider returning exactly one vector per
input, `get_embedding_new` on the accepted 3-element input
`["a", " ", "b"]` returns only 2 vectors — the blank entry is dropped,
so the output count does not match the input count. -/
theorem claim_C7_counterexample :
    get_embedding_new_list apiOnePerText ["a", " ", "b"] = .ok [[(0 : ℚ)], [0]] ∧
    (["a", " ", "b"] : List String).length = 3 :=
  ⟨rfl, rfl⟩

/-- C7 amended: the embedding clients return exactly one vector per
*non-blank* input text, in input order — blank entries are stripped out
before the API call, so the output count equals the number of non-blank
inputs, not the total input count.  This holds for the lenient client
(`get_embedding_new`, including its zero-vector fallback) and for the
strict client (`get_openai_embeddings`). -/
theorem claim_C7_amended_one_vector_per_nonblank (api : EmbedApi) (texts : List String)
    (hcount : EmbedCountExact api) (hne : texts ≠ [])
    (hnb : ¬ (texts.all fun t => pyStrip t = "") = true) :
    (∀ out, api (processedInputs texts) = some out →
      get_embedding_new_list api texts = .ok out ∧
      out.length = texts.countP fun t => pyStrip t ≠ "") ∧
    (api (processedInputs texts) = none →
      get_embedding_new_list api texts =
        .ok (List.replicate (processedInputs texts).length
          (List.replicate VECTOR_DIM (0 : ℚ))) ∧
      (processedInputs texts).length = texts.countP fun t => pyStrip t ≠ "") ∧
    (∀ out, api (processedInputsBQ texts) = some out → processedInputsBQ texts ≠ [] →
      get_openai_embeddings api texts = .ok out ∧
      out.length = (processedInputsBQ texts).length) := by
  have hcond : ¬(texts = [] ∨ (texts.all fun t => pyStrip t = "") = true) :=
    not_or.mpr ⟨hne, hnb⟩
  refine ⟨?_, ?_, ?_⟩
  · intro out hapi
    constructor
    · unfold get_embedding_new_list
      rw [if_neg hcond, hapi]
    · rw [hcount _ out hapi]
      exact processedInputs_length texts
  · intro hapi
    constructor
    · unfold get_embedding_new_list
      rw [if_neg hcond, hapi]
    · exact processedInputs_length texts
  · intro out hapi hpne
    constructor
    · unfold get_openai_embeddings
      rw [if_neg hne, if_neg hpne, hapi]
    · exact hcount _ out hapi

/-- C7 witness: the amended count law at the concrete input
`["a", " ", "b"]`. -/
theorem claim_C7_witness :
    get_embedding_new_list apiOnePerText ["a", " ", "b"] = .ok [[(0 : ℚ)], [0]] ∧
    ([[(0 : ℚ)], [0]] : List (List ℚ)).length =
      (["a", " ", "b"] : List String).countP fun t => pyStrip t ≠ "" :=
  (claim_C7_amended_one_vector_per_nonblank apiOnePerText ["a", " ", "b"]
      apiOnePerText_count (by decide) (by decide)).1 [[0], [0]] rfl

end CasosUso


